import Mathlib

/-!
Verification of the `supermerlijn2010/image-generator` repository against its
natural-language specification.

The repository holds two Flask applications:

* `generator_app/app.py` — a placeholder-image synthesizer
  (`_seed_from_prompt`, `_generate_placeholder_image`), a "training data"
  preparer (`train_model`) and a metadata writer (`_save_training_metadata`).
* `labeler_app/app.py` — a keyword label matcher (`_auto_label`), a manual
  labeling walker (`label_image`, `upload_dataset`, `upload_keywords`,
  `auto_label`, `reset_manual_labels`) and a label persister (`_save_labels`).

The Lean definitions below are a shallow embedding of those functions:
pure Python functions become Lean functions, the mutable module-level
`APP_STATE` dictionary becomes an explicit state record threaded through an
event-step function, Python dictionaries become insertion-ordered association
lists (`dictInsert` preserves the position of an existing key, exactly like a
CPython `dict` assignment), and filesystem writes become entries appended to a
write log carried in the state or in the result record.
-/

namespace ImageGenerator

/-! ## generator_app: placeholder-image synthesizer -/

/-- Python `_seed_from_prompt`:
`return sum(ord(char) for char in prompt) % 255 or 1`.
The `or 1` replaces a zero remainder by `1`. -/
def _seed_from_prompt (prompt : String) : Nat :=
  let s := (prompt.data.map Char.toNat).sum % 255
  if s = 0 then 1 else s

/-- The drawing commands issued by `_generate_placeholder_image`: a fresh RGB
canvas of a given size and background color, with one text draw call on it.
PNG encoding of this value is performed by the PIL library and is outside the
embedding (the spec itself scopes determinism as "format and drawing library
permitting"). -/
structure PlaceholderImage where
  width : Nat
  height : Nat
  background : Nat × Nat × Nat
  text : String
  textPosition : Nat × Nat
  textFill : Nat × Nat × Nat
  deriving Repr, DecidableEq

/-- Python `_generate_placeholder_image`: seed from the prompt, a fixed
512×512 canvas, background `(seed, 255 - seed, (seed * 2) % 255)`, text
`prompt[:50] if prompt else "Custom Image"` drawn in white at
`(20, height // 2 - 10)`. -/
def _generate_placeholder_image (prompt : String) : PlaceholderImage :=
  let seed := _seed_from_prompt prompt
  let width := 512
  let height := 512
  { width := width
    height := height
    background := (seed, 255 - seed, (seed * 2) % 255)
    text := if prompt = "" then "Custom Image" else prompt.take 50
    textPosition := (20, height / 2 - 10)
    textFill := (255, 255, 255) }

/-- C1: the placeholder-image synthesizer is deterministic: equal prompts
produce identical output; the result is a pure function of the prompt with no
hidden state. -/
theorem c1_synthesize_deterministic (p1 p2 : String) (h : p1 = p2) :
    _generate_placeholder_image p1 = _generate_placeholder_image p2 := by
  rw [h]

/-- Witness for C1 at the concrete prompt "sunset". -/
theorem c1_synthesize_deterministic_witness :
    _generate_placeholder_image "sunset" = _generate_placeholder_image "sunset" :=
  c1_synthesize_deterministic "sunset" "sunset" rfl

/-- C9: the derived seed equals the sum of the prompt's character code points
modulo 255, floored to a minimum of 1; for every non-empty prompt (in fact for
every prompt) the seed lies in `[1, 255]`. -/
theorem c9_seed_formula_and_range (p : String) (h : p ≠ "") :
    _seed_from_prompt p = max ((p.data.map Char.toNat).sum % 255) 1 ∧
      1 ≤ _seed_from_prompt p ∧ _seed_from_prompt p ≤ 255 := by
  clear h
  unfold _seed_from_prompt
  set s := (p.data.map Char.toNat).sum % 255 with hs
  have hlt : s < 255 := Nat.mod_lt _ (by norm_num)
  by_cases h0 : s = 0
  · simp [h0]
  · have h1 : 1 ≤ s := Nat.one_le_iff_ne_zero.mpr h0
    simp only [if_neg h0]
    exact ⟨(Nat.max_eq_left h1).symm, h1, Nat.le_of_lt (by omega)⟩

/-- Witness for C9 at the concrete prompt "a" (code point 97). -/
theorem c9_seed_formula_and_range_witness :
    _seed_from_prompt "a" = max (("a".data.map Char.toNat).sum % 255) 1 ∧
      1 ≤ _seed_from_prompt "a" ∧ _seed_from_prompt "a" ≤ 255 :=
  c9_seed_formula_and_range "a" (by decide)

/-! ## Python dictionaries as insertion-ordered association lists -/

/-- CPython `dict` assignment `m[k] = v`: if `k` is already a key, its value
is replaced in place (the key keeps its original position); otherwise the
pair is appended at the end. -/
def dictInsert {β : Type} (m : List (String × β)) (k : String) (v : β) :
    List (String × β) :=
  if (m.map Prod.fst).contains k then
    m.map (fun p => if p.1 = k then (k, v) else p)
  else
    m ++ [(k, v)]

/-- CPython `dict` lookup `m.get(k)` / `m[k]`. -/
def dictGet? {β : Type} (m : List (String × β)) (k : String) : Option β :=
  (m.find? (fun p => p.1 == k)).map Prod.snd

/-! ## labeler_app: keyword label matcher -/

/-- Python `str.lower()` on the character sequence of a string. -/
def lowerChars (s : String) : List Char :=
  s.data.map Char.toLower

/-- Python `_auto_label`: for each `(filename, path)` entry, in order, bind
`filename` in the result dict to
`[kw for kw in keywords if kw.lower() in filename.lower()]`.
The second tuple component is the path, unused by the matcher. -/
def _auto_label (images : List (String × String)) (keywords : List String) :
    List (String × List String) :=
  images.foldl
    (fun labels p =>
      dictInsert labels p.1
        (keywords.filter (fun kw => decide (lowerChars kw <:+: lowerChars p.1))))
    []

/-- Every pair present in `dictInsert m k v` is a pair of `m` or is `(k, v)`. -/
theorem mem_dictInsert {β : Type} {m : List (String × β)} {k : String} {v : β}
    {p : String × β} (hp : p ∈ dictInsert m k v) : p ∈ m ∨ p = (k, v) := by
  unfold dictInsert at hp
  by_cases hk : (m.map Prod.fst).contains k
  · rw [if_pos hk] at hp
    obtain ⟨q, hq, hqe⟩ := List.mem_map.mp hp
    by_cases hq1 : q.1 = k
    · right
      rw [if_pos hq1] at hqe
      exact hqe.symm
    · left
      rw [if_neg hq1] at hqe
      exact hqe ▸ hq
  · rw [if_neg hk] at hp
    rcases List.mem_append.mp hp with h | h
    · exact Or.inl h
    · exact Or.inr (List.mem_singleton.mp h)

/-- Every value stored in the `_auto_label` result is a filter of the keyword
list for some filename. -/
theorem auto_label_values (images : List (String × String))
    (keywords : List String) :
    ∀ p ∈ _auto_label images keywords,
      ∃ fn, p.2 = keywords.filter
        (fun kw => decide (lowerChars kw <:+: lowerChars fn)) := by
  unfold _auto_label
  suffices h : ∀ (acc : List (String × List String)),
      (∀ p ∈ acc, ∃ fn, p.2 = keywords.filter
        (fun kw => decide (lowerChars kw <:+: lowerChars fn))) →
      ∀ p ∈ images.foldl
        (fun labels q =>
          dictInsert labels q.1
            (keywords.filter (fun kw => decide (lowerChars kw <:+: lowerChars q.1))))
        acc,
      ∃ fn, p.2 = keywords.filter
        (fun kw => decide (lowerChars kw <:+: lowerChars fn)) by
    exact h [] (by simp)
  intro acc hacc
  induction images generalizing acc with
  | nil => simpa using hacc
  | cons img rest ih =>
    intro p hp
    refine ih (dictInsert acc img.1
      (keywords.filter (fun kw => decide (lowerChars kw <:+: lowerChars img.1))))
      ?_ p hp
    intro q hq
    rcases mem_dictInsert hq with h | h
    · exact hacc q h
    · exact ⟨img.1, by rw [h]⟩

/-- C2: a keyword `k` is in `match([f], [k])[f]` iff `k.lower()` is a
substring of `f.lower()`; and every file's matched-keyword sequence is a
sublist of the keyword list, hence preserves the keywords' input order. -/
theorem c2_match_rule_and_order :
    (∀ (f k path : String),
      k ∈ (dictGet? (_auto_label [(f, path)] [k]) f).getD [] ↔
        lowerChars k <:+: lowerChars f) ∧
    (∀ (images : List (String × String)) (keywords : List String)
      (fn : String),
      ((dictGet? (_auto_label images keywords) fn).getD []).Sublist keywords) := by
  constructor
  · intro f k path
    show k ∈ (dictGet? (dictInsert [] f
        ([k].filter (fun kw => decide (lowerChars kw <:+: lowerChars f)))) f).getD []
          ↔ lowerChars k <:+: lowerChars f
    by_cases h : lowerChars k <:+: lowerChars f
    · simp [dictInsert, dictGet?, List.filter, h]
    · simp [dictInsert, dictGet?, List.filter, h]
  · intro images keywords fn
    cases hg : dictGet? (_auto_label images keywords) fn with
    | none => simp [List.nil_sublist]
    | some l =>
      simp only [Option.getD_some]
      unfold dictGet? at hg
      obtain ⟨p, hfind, hsnd⟩ := Option.map_eq_some'.mp hg
      have hmem : p ∈ _auto_label images keywords := List.mem_of_find?_eq_some hfind
      obtain ⟨g, hgval⟩ := auto_label_values images keywords p hmem
      rw [← hsnd, hgval]
      exact List.filter_sublist _

/-- C5 as stated is false: `match(images, [])` with a non-empty image list is
not an empty mapping — it has one entry per image. Concretely,
`_auto_label [("a.png", path)] []` has one entry. -/
theorem c5_counterexample :
    _auto_label [("a.png", "/tmp/a.png")] [] ≠ [] := by
  decide

/-- C5 amended: `match([], keywords)` is the empty mapping, and
`match(images, [])` maps every entry it contains to the empty keyword
sequence (it has one entry per image filename, not zero entries). -/
theorem c5_empty_inputs :
    (∀ keywords : List String, _auto_label [] keywords = []) ∧
    (∀ images : List (String × String),
      (_auto_label images []).all (fun p => p.2.isEmpty) = true) := by
  constructor
  · intro keywords
    rfl
  · intro images
    rw [List.all_eq_true]
    intro p hp
    obtain ⟨fn, hfn⟩ := auto_label_values images [] p hp
    simp [hfn]

/-! ## labeler_app: session state and event step function

`APP_STATE` in `labeler_app/app.py` is a module-level dictionary with keys
`images`, `keywords`, `manual_labels`, `label_index`. We add two write logs,
`savedManual` and `savedAuto`, recording each `_save_labels` call made for
`manual-labels.json` and `auto-labels.json` respectively. -/

/-- A Python exception relevant to the labeler upload path. -/
inductive PyError where
  | nameError (missing : String)
  | badZipFile
  deriving Repr, DecidableEq

structure AppState where
  images : List (String × String)
  keywords : List String
  manualLabels : List (String × List String)
  labelIndex : Nat
  savedManual : List (List (String × List String))
  savedAuto : List (List (String × List String))
  deriving Repr, DecidableEq

/-- The initial `APP_STATE` of `labeler_app/app.py`. -/
def initState : AppState :=
  { images := [], keywords := [], manualLabels := [], labelIndex := 0,
    savedManual := [], savedAuto := [] }

/-- Python `reset_manual_labels`: clear `manual_labels`, set `label_index`
to 0. -/
def reset_manual_labels (s : AppState) : AppState :=
  { s with manualLabels := [], labelIndex := 0 }

/-- Python `c.strip()` strips whitespace; these are the common ASCII
whitespace characters. -/
def isSpaceChar (c : Char) : Bool :=
  c = ' ' || c = '\t' || c = '\n' || c = '\r'

/-- Python `str.strip()` on a character sequence. -/
def stripChars (cs : List Char) : List Char :=
  ((cs.dropWhile isSpaceChar).reverse.dropWhile isSpaceChar).reverse

/-- Python `str.split(",")` on a character sequence: split at every comma;
`"".split(",") == [""]`. -/
def splitComma : List Char → List (List Char)
  | [] => [[]]
  | c :: rest =>
    let r := splitComma rest
    if c = ',' then [] :: r
    else (c :: r.headD []) :: r.tail

/-- The keyword parsing in route `upload_keywords`:
`[kw.strip() for kw in keywords_text.split(",") if kw.strip()]`. -/
def parseKeywords (text : String) : List String :=
  ((splitComma text.data).map (fun cs => String.mk (stripChars cs))).filter
    (fun kw => !kw.isEmpty)

/-- The body of route `upload_dataset` once a file with a non-empty filename
is present, parametrized by the outcome of `_load_images_from_upload`:
on success the images are replaced and `reset_manual_labels()` runs; a
`BadZipFile` error is caught (state unchanged); any other exception
propagates out of the handler. -/
def uploadDatasetHandler (s : AppState)
    (loadResult : Except PyError (List (String × String))) :
    Except PyError AppState :=
  match loadResult with
  | .ok imgs => .ok (reset_manual_labels { s with images := imgs })
  | .error .badZipFile => .ok s
  | .error e => .error e

/-- One user interaction with the labeler app. `uploadDataset` carries the
outcome of loading the uploaded archive. -/
inductive Event where
  | uploadDataset (loadResult : Except PyError (List (String × String)))
  | uploadKeywords (text : String)
  | autoLabel
  | labelImage (selections : List String)
  deriving Repr

/-- The effect of one completed request on `APP_STATE`, following the four
route handlers. An uncaught exception leaves the module state unchanged. -/
def applyEvent (e : Event) (s : AppState) : AppState :=
  match e with
  | .uploadDataset r =>
    match uploadDatasetHandler s r with
    | .ok s' => s'
    | .error _ => s
  | .uploadKeywords text => { s with keywords := parseKeywords text }
  | .autoLabel =>
    if s.images.isEmpty || s.keywords.isEmpty then s
    else
      let labels := _auto_label s.images s.keywords
      { s with savedAuto := s.savedAuto ++ [labels], manualLabels := labels }
  | .labelImage selections =>
    if s.images.isEmpty then s
    else if s.keywords.isEmpty then s
    else if s.images.length ≤ s.labelIndex then s
    else
      let fn := (s.images.getD s.labelIndex ("", "")).1
      let m := dictInsert s.manualLabels fn selections
      let i := s.labelIndex + 1
      if s.images.length ≤ i then
        { s with manualLabels := m, labelIndex := i,
                 savedManual := s.savedManual ++ [m] }
      else
        { s with manualLabels := m, labelIndex := i }

/-- Run a sequence of requests from the initial module state. -/
def runEvents (events : List Event) : AppState :=
  events.foldl (fun s e => applyEvent e s) initState

/-- Run a sequence of "save and next" requests (route `label_image`), one per
selection list. -/
def runLabels (s : AppState) (steps : List (List String)) : AppState :=
  steps.foldl (fun st sel => applyEvent (Event.labelImage sel) st) s

/-- A freshly loaded session: dataset and keywords present, cursor 0, no
manual labels, nothing persisted yet. -/
def mkStart (imgs : List (String × String)) (kws : List String) : AppState :=
  { initState with images := imgs, keywords := kws }

/-- The template's completion flag: `images and index >= len(images)`. -/
def manualComplete (s : AppState) : Bool :=
  !s.images.isEmpty && decide (s.images.length ≤ s.labelIndex)

/-- The cursor bound is preserved by every single request. -/
theorem applyEvent_cursor_le (e : Event) (s : AppState)
    (h : s.labelIndex ≤ s.images.length) :
    (applyEvent e s).labelIndex ≤ (applyEvent e s).images.length := by
  cases e with
  | uploadDataset r =>
    cases r with
    | ok imgs => simp [applyEvent, uploadDatasetHandler, reset_manual_labels]
    | error err =>
      cases err with
      | nameError m => simpa [applyEvent, uploadDatasetHandler] using h
      | badZipFile => simpa [applyEvent, uploadDatasetHandler] using h
  | uploadKeywords text => simpa [applyEvent] using h
  | autoLabel =>
    by_cases hc : s.images.isEmpty || s.keywords.isEmpty <;>
      simp [applyEvent, hc] <;> exact h
  | labelImage selections =>
    by_cases h1 : s.images.isEmpty
    · simpa [applyEvent, h1] using h
    · by_cases h2 : s.keywords.isEmpty
      · simpa [applyEvent, h1, h2] using h
      · by_cases h3 : s.images.length ≤ s.labelIndex
        · simpa [applyEvent, h1, h2, h3] using h
        · by_cases h4 : s.images.length ≤ s.labelIndex + 1 <;>
            simp [applyEvent, h1, h2, h3, h4] <;> omega

/-- C6 counterexample: the claim "the session is complete exactly when
cursor == len(images)" fails in a reachable state: after storing keywords
with no dataset loaded, cursor == len(images) == 0 yet the session is not
complete (the app's completion flag also requires a non-empty image list). -/
theorem c6_counterexample :
    (runEvents [Event.uploadKeywords "x"]).labelIndex =
      (runEvents [Event.uploadKeywords "x"]).images.length ∧
    manualComplete (runEvents [Event.uploadKeywords "x"]) = false := by
  decide

/-- C6 amended: in every reachable state the cursor is in
`[0, len(images)]`, and the session is complete exactly when the image list
is non-empty and cursor == len(images). -/
theorem c6_cursor_invariant_and_completion (events : List Event) :
    (runEvents events).labelIndex ≤ (runEvents events).images.length ∧
    (manualComplete (runEvents events) = true ↔
      ((runEvents events).images ≠ [] ∧
        (runEvents events).labelIndex = (runEvents events).images.length)) := by
  have hinv : ∀ (evs : List Event) (s : AppState),
      s.labelIndex ≤ s.images.length →
      (evs.foldl (fun st e => applyEvent e st) s).labelIndex ≤
        (evs.foldl (fun st e => applyEvent e st) s).images.length := by
    intro evs
    induction evs with
    | nil => intro s h; exact h
    | cons e rest ih =>
      intro s h
      exact ih (applyEvent e s) (applyEvent_cursor_le e s h)
  have h1 : (runEvents events).labelIndex ≤ (runEvents events).images.length :=
    hinv events initState (by simp [initState])
  refine ⟨h1, ?_⟩
  unfold manualComplete
  rw [Bool.and_eq_true, Bool.not_eq_true', List.isEmpty_eq_false_iff_exists_mem,
    decide_eq_true_eq]
  constructor
  · rintro ⟨⟨x, hx⟩, hle⟩
    exact ⟨List.ne_nil_of_mem hx, Nat.le_antisymm h1 hle⟩
  · rintro ⟨hne, heq⟩
    obtain ⟨x, hx⟩ := List.exists_mem_of_ne_nil _ hne
    exact ⟨⟨x, hx⟩, Nat.le_of_eq heq.symm⟩

/-- C4 counterexample: loading a new keyword list does not reset the walker.
Reachable state: load a two-image dataset, store keyword "x", label one
image (cursor 1, one unsaved manual selection); then store keyword list "y":
the cursor is still 1 and the manual selection is still present. -/
theorem c4_counterexample :
    (applyEvent (Event.uploadKeywords "y")
      (runEvents [Event.uploadDataset (Except.ok [("a.png", "pa"), ("b.png", "pb")]),
        Event.uploadKeywords "x", Event.labelImage ["x"]])).labelIndex = 1 ∧
    (applyEvent (Event.uploadKeywords "y")
      (runEvents [Event.uploadDataset (Except.ok [("a.png", "pa"), ("b.png", "pb")]),
        Event.uploadKeywords "x", Event.labelImage ["x"]])).manualLabels =
      [("a.png", ["x"])] := by
  decide

/-- C4 amended: successfully loading a new dataset, from any state, resets
the walker to cursor 0 and discards all unsaved manual selections; loading a
new keyword list does not reset the walker — it leaves the cursor and the
manual selections unchanged. -/
theorem c4_dataset_resets_keywords_do_not (s : AppState)
    (imgs : List (String × String)) (text : String) :
    (applyEvent (Event.uploadDataset (Except.ok imgs)) s).labelIndex = 0 ∧
    (applyEvent (Event.uploadDataset (Except.ok imgs)) s).manualLabels = [] ∧
    (applyEvent (Event.uploadDataset (Except.ok imgs)) s).images = imgs ∧
    (applyEvent (Event.uploadKeywords text) s).labelIndex = s.labelIndex ∧
    (applyEvent (Event.uploadKeywords text) s).manualLabels = s.manualLabels := by
  simp [applyEvent, uploadDatasetHandler, reset_manual_labels]

/-! ## The manual labeling walker (claim C3) -/

/-- Inserting a fresh key into a Python dict appends the pair at the end. -/
theorem dictInsert_of_not_mem {β : Type} {m : List (String × β)} {k : String}
    (h : k ∉ m.map Prod.fst) (v : β) : dictInsert m k v = m ++ [(k, v)] := by
  unfold dictInsert
  have hc : ((m.map Prod.fst).contains k) = false := by simpa using h
  rw [hc]
  simp

/-- In a duplicate-free list, the element at position `j` does not occur
among the first `j` elements. -/
theorem getD_not_mem_take {α : Type} (l : List α) (hnd : l.Nodup) :
    ∀ (j : Nat), j < l.length → ∀ (d : α), l.getD j d ∉ l.take j := by
  induction l with
  | nil => intro j hj d; simp at hj
  | cons a tl ih =>
    intro j hj d
    cases j with
    | zero => simp
    | succ j =>
      have hj' : j < tl.length := by simpa using hj
      rw [List.take_succ_cons]
      have hgd : (a :: tl).getD (j + 1) d = tl.getD j d := rfl
      rw [hgd]
      intro hmem
      rcases List.mem_cons.mp hmem with h | h
      · have hin : tl.getD j d ∈ tl := by
          rw [List.getD_eq_getElem tl d hj']
          exact List.getElem_mem hj'
        rw [h] at hin
        exact (List.nodup_cons.mp hnd).1 hin
      · exact ih (List.nodup_cons.mp hnd).2 j hj' d h

/-- One "save and next" request in a state with images left and a non-empty
keyword list: record the selections under the current image's filename,
advance the cursor, and persist the manual mapping exactly when the cursor
reaches the end. -/
theorem labelImage_step (imgs : List (String × String)) (kws : List String)
    (m : List (String × List String)) (j : Nat)
    (sm sa : List (List (String × List String))) (sel : List String)
    (hj : j < imgs.length) (hk : kws ≠ []) :
    applyEvent (Event.labelImage sel) ⟨imgs, kws, m, j, sm, sa⟩ =
      (if imgs.length ≤ j + 1 then
        (⟨imgs, kws, dictInsert m (imgs.getD j ("", "")).1 sel, j + 1,
          sm ++ [dictInsert m (imgs.getD j ("", "")).1 sel], sa⟩ : AppState)
      else
        ⟨imgs, kws, dictInsert m (imgs.getD j ("", "")).1 sel, j + 1, sm, sa⟩) := by
  have h1 : imgs.isEmpty = false := by
    cases imgs
    · simp at hj
    · rfl
  have h2 : kws.isEmpty = false := by
    cases kws
    · exact absurd rfl hk
    · rfl
  have h3 : ¬ imgs.length ≤ j := by omega
  simp only [applyEvent, h1, h2, h3, Bool.false_eq_true, if_false]

/-- The filename at the cursor, seen through `Prod.fst`. -/
theorem fst_getD (imgs : List (String × String)) (j : Nat)
    (hj : j < imgs.length) :
    (imgs.getD j ("", "")).1 = (imgs.map Prod.fst).getD j "" := by
  rw [List.getD_eq_getElem imgs ("", "") hj,
    List.getD_eq_getElem (imgs.map Prod.fst) "" (by simpa using hj),
    List.getElem_map]

/-- The cursor advances by exactly one per "save and next" request, with
no duplicate-freeness assumption. -/
theorem cursorWalk_spec (imgs : List (String × String)) (kws : List String)
    (hk : kws ≠ []) :
    ∀ (steps : List (List String)) (m : List (String × List String)) (j : Nat)
      (sm sa : List (List (String × List String))),
      j + steps.length ≤ imgs.length →
      (runLabels ⟨imgs, kws, m, j, sm, sa⟩ steps).labelIndex = j + steps.length := by
  intro steps
  induction steps with
  | nil => intro m j sm sa hb; simp [runLabels]
  | cons sel rest ih =>
    intro m j sm sa hb
    simp only [List.length_cons] at hb
    have hj : j < imgs.length := by omega
    have hrun : runLabels ⟨imgs, kws, m, j, sm, sa⟩ (sel :: rest) =
        runLabels (applyEvent (Event.labelImage sel) ⟨imgs, kws, m, j, sm, sa⟩)
          rest := rfl
    rw [hrun, labelImage_step imgs kws m j sm sa sel hj hk]
    by_cases hlast : imgs.length ≤ j + 1
    · rw [if_pos hlast]
      have := ih (dictInsert m (imgs.getD j ("", "")).1 sel) (j + 1)
        (sm ++ [dictInsert m (imgs.getD j ("", "")).1 sel]) sa (by omega)
      rw [this]
      simp only [List.length_cons]
      omega
    · rw [if_neg hlast]
      have := ih (dictInsert m (imgs.getD j ("", "")).1 sel) (j + 1) sm sa
        (by omega)
      rw [this]
      simp only [List.length_cons]
      omega

/-- Walk specification: with a non-empty keyword list and duplicate-free
filenames, `n` "save and next" requests starting at cursor `j` move the
cursor to `j + n`, extend the manual mapping's key list to the first `j + n`
filenames, and append exactly one persisted manual mapping iff the walk ends
at the last image. -/
theorem labelWalk_spec (imgs : List (String × String)) (kws : List String)
    (hk : kws ≠ []) (hnd : (imgs.map Prod.fst).Nodup) :
    ∀ (steps : List (List String)) (m : List (String × List String)) (j : Nat)
      (sm sa : List (List (String × List String))),
      m.map Prod.fst = (imgs.map Prod.fst).take j →
      j + steps.length ≤ imgs.length →
      (runLabels ⟨imgs, kws, m, j, sm, sa⟩ steps).images = imgs ∧
      (runLabels ⟨imgs, kws, m, j, sm, sa⟩ steps).manualLabels.map Prod.fst =
        (imgs.map Prod.fst).take (j + steps.length) ∧
      (runLabels ⟨imgs, kws, m, j, sm, sa⟩ steps).savedManual =
        sm ++ (if j + steps.length = imgs.length ∧ steps ≠ [] then
          [(runLabels ⟨imgs, kws, m, j, sm, sa⟩ steps).manualLabels] else []) := by
  intro steps
  induction steps with
  | nil =>
    intro m j sm sa hm hb
    refine ⟨rfl, by simpa [runLabels] using hm, ?_⟩
    simp [runLabels]
  | cons sel rest ih =>
    intro m j sm sa hm hb
    simp only [List.length_cons] at hb
    have hj : j < imgs.length := by omega
    have hjm : j < (imgs.map Prod.fst).length := by simpa using hj
    have hrun : runLabels ⟨imgs, kws, m, j, sm, sa⟩ (sel :: rest) =
        runLabels (applyEvent (Event.labelImage sel) ⟨imgs, kws, m, j, sm, sa⟩)
          rest := rfl
    have hnotmem : (imgs.getD j ("", "")).1 ∉ m.map Prod.fst := by
      rw [hm, fst_getD imgs j hj]
      exact getD_not_mem_take _ hnd j hjm ""
    have hins : dictInsert m (imgs.getD j ("", "")).1 sel =
        m ++ [((imgs.getD j ("", "")).1, sel)] :=
      dictInsert_of_not_mem hnotmem sel
    have hkeys : (m ++ [((imgs.getD j ("", "")).1, sel)]).map Prod.fst =
        (imgs.map Prod.fst).take (j + 1) := by
      rw [List.map_append, hm]
      have h1 : (imgs.getD j ("", "")).1 = (imgs.map Prod.fst)[j] := by
        rw [fst_getD imgs j hj]
        exact List.getD_eq_getElem (imgs.map Prod.fst) "" hjm
      show (imgs.map Prod.fst).take j ++ [(imgs.getD j ("", "")).1] =
        (imgs.map Prod.fst).take (j + 1)
      rw [h1]
      exact List.take_concat_get' (imgs.map Prod.fst) j hjm
    rw [hrun, labelImage_step imgs kws m j sm sa sel hj hk]
    by_cases hlast : imgs.length ≤ j + 1
    · have hrest : rest = [] := by
        cases rest with
        | nil => rfl
        | cons a b => simp only [List.length_cons] at hb; omega
      subst hrest
      rw [if_pos hlast]
      have heq : j + 1 = imgs.length := by omega
      refine ⟨rfl, ?_, ?_⟩
      · show (dictInsert m (imgs.getD j ("", "")).1 sel).map Prod.fst =
          (imgs.map Prod.fst).take (j + [sel].length)
        rw [hins, hkeys]
        rfl
      · show sm ++ [dictInsert m (imgs.getD j ("", "")).1 sel] =
          sm ++ (if j + [sel].length = imgs.length ∧ ([sel] : List (List String)) ≠ []
            then [dictInsert m (imgs.getD j ("", "")).1 sel] else [])
        rw [if_pos ⟨by simp only [List.length_cons, List.length_nil]; omega,
          List.cons_ne_nil sel []⟩]
    · rw [if_neg hlast]
      have hden := ih (dictInsert m (imgs.getD j ("", "")).1 sel) (j + 1) sm sa
        (by rw [hins]; exact hkeys) (by omega)
      obtain ⟨hi1, hi2, hi3⟩ := hden
      refine ⟨hi1, ?_, ?_⟩
      · rw [hi2]
        have : j + 1 + rest.length = j + (sel :: rest).length := by
          simp only [List.length_cons]; omega
        rw [this]
      · rw [hi3]
        have hiff : ((j + 1) + rest.length = imgs.length ∧ rest ≠ []) ↔
            (j + (sel :: rest).length = imgs.length ∧ (sel :: rest) ≠ []) := by
          constructor
          · rintro ⟨h1, h2⟩
            refine ⟨?_, List.cons_ne_nil sel rest⟩
            simp only [List.length_cons]
            omega
          · rintro ⟨h1, h2⟩
            simp only [List.length_cons] at h1
            refine ⟨by omega, ?_⟩
            intro hr
            subst hr
            simp only [List.length_nil] at h1
            omega
        rw [if_congr hiff rfl rfl]

/-- C3 counterexample: with duplicate filenames the persisted manual mapping
has fewer than `N` entries. Dataset of size `N = 2` whose two images are
both named "a.png": after 2 "save and next" calls the cursor is 2 and the
mapping is persisted exactly once, but the persisted mapping has 1 entry,
not 2 (the second selection overwrote the first under the same key). -/
theorem c3_counterexample :
    (runLabels (mkStart [("a.png", "p1"), ("a.png", "p2")] ["x"])
      [["x"], ["x"]]).labelIndex = 2 ∧
    (runLabels (mkStart [("a.png", "p1"), ("a.png", "p2")] ["x"])
      [["x"], ["x"]]).savedManual.length = 1 ∧
    (runLabels (mkStart [("a.png", "p1"), ("a.png", "p2")] ["x"])
      [["x"], ["x"]]).savedManual.map List.length = [1] ∧
    (runLabels (mkStart [("a.png", "p1"), ("a.png", "p2")] ["x"])
      [["x"], ["x"]]).savedManual.map List.length ≠ [2] := by
  decide

/-- C3 amended: after `n` successive "save and next" calls (`n ≤ N`) from a
fresh session the cursor equals `n`; and when `n = N ≥ 1` and the loaded
filenames are pairwise distinct, the manual mapping is persisted exactly
once, upon the transition into the complete state, containing exactly `N`
entries. -/
theorem c3_walker_progress_and_single_persist (imgs : List (String × String))
    (kws : List String) (steps : List (List String)) (hk : kws ≠ [])
    (hnd : (imgs.map Prod.fst).Nodup) (hb : steps.length ≤ imgs.length) :
    (runLabels (mkStart imgs kws) steps).labelIndex = steps.length ∧
    (steps.length = imgs.length → steps ≠ [] →
      (runLabels (mkStart imgs kws) steps).savedManual =
        [(runLabels (mkStart imgs kws) steps).manualLabels] ∧
      (runLabels (mkStart imgs kws) steps).manualLabels.length = imgs.length) := by
  have hstart : mkStart imgs kws = (⟨imgs, kws, [], 0, [], []⟩ : AppState) := rfl
  rw [hstart]
  constructor
  · have := cursorWalk_spec imgs kws hk steps [] 0 [] [] (by omega)
    simpa using this
  · intro hcomplete hne
    obtain ⟨h1, h2, h3⟩ := labelWalk_spec imgs kws hk hnd steps [] 0 [] []
      (by simp) (by omega)
    constructor
    · rw [h3, if_pos ⟨by simpa using hcomplete, hne⟩]
      simp
    · have hlen := congrArg List.length h2
      simp only [List.length_map, List.length_take] at hlen
      rw [hlen]
      omega

/-- Witness for C3 (amended) on a distinct-filename dataset of size 2 with
keyword list ["x"] and two "save and next" calls. -/
theorem c3_walker_progress_and_single_persist_witness :
    (runLabels (mkStart [("a.png", "p1"), ("b.png", "p2")] ["x"])
      [["x"], ["x"]]).labelIndex = 2 ∧
    (runLabels (mkStart [("a.png", "p1"), ("b.png", "p2")] ["x"])
      [["x"], ["x"]]).savedManual =
      [(runLabels (mkStart [("a.png", "p1"), ("b.png", "p2")] ["x"])
        [["x"], ["x"]]).manualLabels] ∧
    (runLabels (mkStart [("a.png", "p1"), ("b.png", "p2")] ["x"])
      [["x"], ["x"]]).manualLabels.length = 2 := by
  have h := c3_walker_progress_and_single_persist
    [("a.png", "p1"), ("b.png", "p2")] ["x"] [["x"], ["x"]]
    (by decide) (by decide) (by decide)
  have h2 := h.2 (by decide) (by decide)
  exact ⟨h.1, h2.1, h2.2⟩

/-! ## generator_app: training-data preparation (`train_model`) -/

/-- A file handled during training preparation, by stem and extension.
The extension carries the leading dot (e.g. ".png"), so `path.stem` is
`stem` and `path.name` is `stem ++ ext`. -/
structure SrcFile where
  stem : String
  ext : String
  deriving Repr, DecidableEq

/-- Python `path.name`: the filename with its extension. -/
def fname (f : SrcFile) : String := f.stem ++ f.ext

/-- A JSON value, as far as the metadata sidecar needs. -/
inductive Json where
  | str (s : String)
  | arr (elems : List Json)
  | obj (fields : List (String × Json))
  deriving Repr

/-- Whether a JSON value is a string. -/
def isStr : Json → Bool
  | .str _ => true
  | _ => false

/-- Python `_save_training_metadata`: the payload written in one pass to
`<run_dir>/metadata.json`:
`{"keywords": keywords, "descriptions": descriptions, "created_at": <utc-iso>}`. -/
def _save_training_metadata (keywords : List String)
    (descriptions : List (String × Json)) (createdAt : String) : Json :=
  .obj [("keywords", .arr (keywords.map .str)),
        ("descriptions", .obj descriptions),
        ("created_at", .str createdAt)]

/-- Python `keyword_map = {path.stem: path for path in keyword_files}`:
a dict comprehension; a later file with the same stem overwrites. -/
def keywordMap (kwFiles : List SrcFile) : List (String × SrcFile) :=
  kwFiles.foldl (fun m f => dictInsert m f.stem f) []

/-- One iteration of the copy loop in `train_model`, accumulating
`(matched, missing)`: an image whose stem is in the keyword map bumps
`matched`; otherwise `missing.append(image_path.name)`. -/
def trainStep (kmap : List (String × SrcFile)) (acc : Nat × List String)
    (img : SrcFile) : Nat × List String :=
  match dictGet? kmap img.stem with
  | some _ => (acc.1 + 1, acc.2)
  | none => (acc.1, acc.2 ++ [fname img])

/-- The whole copy loop of `train_model`. -/
def trainLoop (kmap : List (String × SrcFile)) (imageFiles : List SrcFile) :
    Nat × List String :=
  imageFiles.foldl (trainStep kmap) (0, [])

/-- Failure modes of route `train_model` after extraction. -/
inductive TrainErr where
  | noImages
  | noKeywordFiles
  deriving Repr, DecidableEq

/-- The observable outcome of a successful `train_model` run: the image files
copied into the run directory, the matched count, the missing list, and the
metadata files written (one entry per `metadata.json` write). -/
structure TrainResult where
  copiedImages : List String
  matched : Nat
  missing : List String
  metadataWrites : List Json

/-- Route `train_model` from the point where both archives extracted: reject
empty image or keyword file sets, otherwise run the copy loop and write the
metadata sidecar once, with `keywords=[]` and
`descriptions={"missing_keywords": missing}`. -/
def train_model (imageFiles kwFiles : List SrcFile) (createdAt : String) :
    Except TrainErr TrainResult :=
  if imageFiles.isEmpty then .error .noImages
  else if kwFiles.isEmpty then .error .noKeywordFiles
  else
    let kmap := keywordMap kwFiles
    let mm := trainLoop kmap imageFiles
    .ok { copiedImages := imageFiles.map fname
          matched := mm.1
          missing := mm.2
          metadataWrites := [_save_training_metadata []
            [("missing_keywords", .arr (mm.2.map .str))] createdAt] }

/-- Whether the run succeeded. -/
def trainOk : Except TrainErr TrainResult → Bool
  | .ok _ => true
  | .error _ => false

/-- Matched count of a run (0 on failure). -/
def trainMatched : Except TrainErr TrainResult → Nat
  | .ok r => r.matched
  | .error _ => 0

/-- Missing list of a run ([] on failure). -/
def trainMissing : Except TrainErr TrainResult → List String
  | .ok r => r.missing
  | .error _ => []

/-- Metadata writes of a run ([] on failure). -/
def trainMetadataWrites : Except TrainErr TrainResult → List Json
  | .ok r => r.metadataWrites
  | .error _ => []

/-- The copy loop only extends the missing accumulator on the right. -/
theorem trainLoop_acc (kmap : List (String × SrcFile)) :
    ∀ (l : List SrcFile) (acc : Nat × List String),
      (l.foldl (trainStep kmap) acc).2 =
        acc.2 ++ (l.foldl (trainStep kmap) (0, [])).2 := by
  intro l
  induction l with
  | nil => intro acc; simp
  | cons x rest ih =>
    intro acc
    show (rest.foldl (trainStep kmap) (trainStep kmap acc x)).2 =
      acc.2 ++ (rest.foldl (trainStep kmap) (trainStep kmap (0, []) x)).2
    rw [ih (trainStep kmap acc x), ih (trainStep kmap (0, []) x)]
    unfold trainStep
    cases dictGet? kmap x.stem with
    | none => simp
    | some _ => simp

/-- Every image with no keyword file for its stem contributes its filename
to the missing list. -/
theorem mem_trainLoop_missing (kmap : List (String × SrcFile))
    (l : List SrcFile) (img : SrcFile) (hmem : img ∈ l)
    (hnone : dictGet? kmap img.stem = none) :
    fname img ∈ (trainLoop kmap l).2 := by
  unfold trainLoop
  induction l with
  | nil => simp at hmem
  | cons x rest ih =>
    show fname img ∈ (rest.foldl (trainStep kmap) (trainStep kmap (0, []) x)).2
    rw [trainLoop_acc kmap rest (trainStep kmap (0, []) x)]
    rcases List.mem_cons.mp hmem with h | h
    · subst h
      unfold trainStep
      rw [hnone]
      simp
    · exact List.mem_append_right _ (ih h)

/-- C7 counterexample: the claim says the *stem* of an unmatched image is
recorded in the missing list, but the code records the filename with its
extension: with images {a.png, b.png} and keyword files {a.txt}, matched = 1
and missing = ["b.png"], and the stem "b" is not in the list. -/
theorem c7_counterexample :
    trainMatched (train_model [⟨"a", ".png"⟩, ⟨"b", ".png"⟩]
      [⟨"a", ".txt"⟩] "t") = 1 ∧
    trainMissing (train_model [⟨"a", ".png"⟩, ⟨"b", ".png"⟩]
      [⟨"a", ".txt"⟩] "t") = ["b.png"] ∧
    "b" ∉ trainMissing (train_model [⟨"a", ".png"⟩, ⟨"b", ".png"⟩]
      [⟨"a", ".txt"⟩] "t") ∧
    trainOk (train_model [⟨"a", ".png"⟩, ⟨"b", ".png"⟩]
      [⟨"a", ".txt"⟩] "t") = true := by
  decide

/-- C7 amended: in paired-archive mode, for every image whose stem has no
corresponding keyword text file, the image's *filename* (stem plus
extension) is recorded in the missing list, and the operation still
succeeds. -/
theorem c7_missing_recorded_without_failure (imageFiles kwFiles : List SrcFile)
    (createdAt : String) (img : SrcFile) (hmem : img ∈ imageFiles)
    (hnone : dictGet? (keywordMap kwFiles) img.stem = none)
    (h3 : imageFiles.isEmpty = false) (h4 : kwFiles.isEmpty = false) :
    trainOk (train_model imageFiles kwFiles createdAt) = true ∧
    fname img ∈ trainMissing (train_model imageFiles kwFiles createdAt) := by
  have hred : train_model imageFiles kwFiles createdAt =
      .ok { copiedImages := imageFiles.map fname
            matched := (trainLoop (keywordMap kwFiles) imageFiles).1
            missing := (trainLoop (keywordMap kwFiles) imageFiles).2
            metadataWrites := [_save_training_metadata []
              [("missing_keywords",
                .arr (((trainLoop (keywordMap kwFiles) imageFiles).2).map .str))]
              createdAt] } := by
    unfold train_model
    rw [h3, h4]
    rfl
  rw [hred]
  exact ⟨rfl, mem_trainLoop_missing (keywordMap kwFiles) imageFiles img hmem hnone⟩

/-- Witness for C7 (amended) at the spec's own example: images {a.png, b.png},
keyword files {a.txt}; the unmatched image is b.png. -/
theorem c7_missing_recorded_without_failure_witness :
    trainOk (train_model [⟨"a", ".png"⟩, ⟨"b", ".png"⟩]
      [⟨"a", ".txt"⟩] "t") = true ∧
    fname ⟨"b", ".png"⟩ ∈ trainMissing (train_model
      [⟨"a", ".png"⟩, ⟨"b", ".png"⟩] [⟨"a", ".txt"⟩] "t") :=
  c7_missing_recorded_without_failure [⟨"a", ".png"⟩, ⟨"b", ".png"⟩]
    [⟨"a", ".txt"⟩] "t" ⟨"b", ".png"⟩ (by decide) (by decide) rfl rfl

/-- The shape demanded by the spec's Metadata Record sentence (this
definition follows the spec's words, for comparison with the code):
`{keywords: ordered sequence of string, descriptions: mapping of
filename → string, created_at: ISO-8601 timestamp}` — in particular every
value of `descriptions` is a string. -/
def specMetadataShape : Json → Bool
  | .obj [("keywords", .arr ks), ("descriptions", .obj ds), ("created_at", .str _)] =>
    ks.all isStr && ds.all (fun p => isStr p.2)
  | _ => false

/-- The shape the code actually persists: `descriptions` is an object with
the single key "missing_keywords" whose value is an array of filename
strings. -/
def actualMetadataShape : Json → Bool
  | .obj [("keywords", .arr ks),
          ("descriptions", .obj [("missing_keywords", .arr ms)]),
          ("created_at", .str _)] =>
    ks.all isStr && ms.all isStr
  | _ => false

/-- C8 counterexample: the metadata record persisted by `train_model` does
not have the spec's shape — `descriptions` maps "missing_keywords" (not a
filename) to a list (not a string). Concrete run: one image a.png, one
keyword file a.txt. -/
theorem c8_counterexample :
    (trainMetadataWrites (train_model [⟨"a", ".png"⟩] [⟨"a", ".txt"⟩] "t")).length
      = 1 ∧
    ¬ ((trainMetadataWrites (train_model [⟨"a", ".png"⟩] [⟨"a", ".txt"⟩] "t")).all
      specMetadataShape = true) := by
  decide

/-- C8 amended: every successful training run writes the metadata record
exactly once (write-once, never mutated), and the record has the shape
`{keywords: array of string, descriptions: {"missing_keywords": array of
filename strings}, created_at: timestamp string}`. -/
theorem c8_metadata_written_once_with_actual_shape
    (imageFiles kwFiles : List SrcFile) (createdAt : String)
    (h3 : imageFiles.isEmpty = false) (h4 : kwFiles.isEmpty = false) :
    (trainMetadataWrites (train_model imageFiles kwFiles createdAt)).length = 1 ∧
    (trainMetadataWrites (train_model imageFiles kwFiles createdAt)).all
      actualMetadataShape = true := by
  have hall : ∀ ms : List String, ((ms.map Json.str).all isStr) = true := by
    intro ms
    induction ms with
    | nil => rfl
    | cons x rest ih => simp [isStr, ih]
  have hred : train_model imageFiles kwFiles createdAt =
      .ok { copiedImages := imageFiles.map fname
            matched := (trainLoop (keywordMap kwFiles) imageFiles).1
            missing := (trainLoop (keywordMap kwFiles) imageFiles).2
            metadataWrites := [_save_training_metadata []
              [("missing_keywords",
                .arr (((trainLoop (keywordMap kwFiles) imageFiles).2).map .str))]
              createdAt] } := by
    unfold train_model
    rw [h3, h4]
    rfl
  rw [hred]
  refine ⟨rfl, ?_⟩
  show (actualMetadataShape (_save_training_metadata []
    [("missing_keywords",
      .arr (((trainLoop (keywordMap kwFiles) imageFiles).2).map .str))]
    createdAt) && true) = true
  rw [Bool.and_true]
  show ((((trainLoop (keywordMap kwFiles) imageFiles).2).map Json.str).all isStr)
    = true
  exact hall _

/-- Witness for C8 (amended) at a run with one image and one keyword file. -/
theorem c8_metadata_written_once_with_actual_shape_witness :
    (trainMetadataWrites (train_model [⟨"a", ".png"⟩] [⟨"a", ".txt"⟩] "t")).length
      = 1 ∧
    (trainMetadataWrites (train_model [⟨"a", ".png"⟩] [⟨"a", ".txt"⟩] "t")).all
      actualMetadataShape = true :=
  c8_metadata_written_once_with_actual_shape [⟨"a", ".png"⟩] [⟨"a", ".txt"⟩]
    "t" rfl rfl

/-! ## labeler_app: dataset upload and the missing `tempfile` binding (C10) -/

/-- `SUPPORTED_IMAGE_TYPES` from `labeler_app/app.py`. -/
def SUPPORTED_IMAGE_TYPES : List String :=
  [".png", ".jpg", ".jpeg", ".bmp", ".gif"]

/-- The names bound at module level by the top of `labeler_app/app.py`
(its module-level imported modules and names, lines 1–8): `base64`, `json`,
`os`, `zipfile`, `Path`, the `typing` names, and the Flask names. The name
`tempfile` is not among them. -/
def labeler_imported_names : List String :=
  ["base64", "json", "os", "zipfile", "Path", "Dict", "List", "Tuple",
   "Flask", "flash", "redirect", "render_template_string", "request",
   "url_for"]

/-- An uploaded dataset archive: its form filename, whether its bytes are a
valid zip, and its member files. -/
structure Upload where
  filename : String
  validZip : Bool
  members : List SrcFile
  deriving Repr, DecidableEq

/-- Python `_load_images_from_upload`. Its first statement evaluates the
name `tempfile`; CPython resolves a free name at use time, so when
`tempfile` is not bound in the module a `NameError` is raised before the
upload is saved or the archive opened. The success branch models the rest
of the body: collect, as `(member.name, member-path)` pairs, the extracted
members whose lowercased suffix is in `SUPPORTED_IMAGE_TYPES`; a corrupt
archive raises `BadZipFile`. -/
def _load_images_from_upload (upload : Upload) :
    Except PyError (List (String × String)) :=
  if labeler_imported_names.contains "tempfile" then
    if upload.validZip then
      .ok ((upload.members.filter
        (fun m => SUPPORTED_IMAGE_TYPES.contains
          (String.mk (m.ext.data.map Char.toLower)))).map
        (fun m => (fname m, fname m)))
    else .error .badZipFile
  else .error (.nameError "tempfile")

/-- Route `upload_dataset`: a missing upload or an empty filename is
rejected with a flash message (state unchanged); otherwise the handler body
runs on the result of `_load_images_from_upload` (catching only
`BadZipFile`). -/
def upload_dataset (s : AppState) (upload? : Option Upload) :
    Except PyError AppState :=
  match upload? with
  | none => .ok s
  | some u =>
    if u.filename = "" then .ok s
    else uploadDatasetHandler s (_load_images_from_upload u)

/-- C10: `tempfile` is never imported by `labeler_app/app.py`, so for every
non-empty dataset upload `_load_images_from_upload` raises `NameError`
before reading the archive, `upload_dataset` can never succeed in loading
images, and its `BadZipFile` handler is unreachable. -/
theorem c10_upload_dataset_name_error (s : AppState) (u v : Upload)
    (h : u.filename ≠ "") :
    "tempfile" ∉ labeler_imported_names ∧
    _load_images_from_upload u = .error (.nameError "tempfile") ∧
    _load_images_from_upload v ≠ .error .badZipFile ∧
    upload_dataset s (some u) = .error (.nameError "tempfile") := by
  have hload : ∀ w : Upload,
      _load_images_from_upload w = .error (.nameError "tempfile") := by
    intro w
    unfold _load_images_from_upload
    rfl
  refine ⟨by decide, hload u, ?_, ?_⟩
  · rw [hload v]
    intro hcontra
    exact PyError.noConfusion (Except.error.inj hcontra)
  · show (if u.filename = "" then Except.ok s
      else uploadDatasetHandler s (_load_images_from_upload u)) =
      .error (.nameError "tempfile")
    rw [if_neg h, hload u]
    rfl

/-- Witness for C10 at a concrete non-empty upload. -/
theorem c10_upload_dataset_name_error_witness :
    "tempfile" ∉ labeler_imported_names ∧
    _load_images_from_upload ⟨"data.zip", true, []⟩ =
      .error (.nameError "tempfile") ∧
    _load_images_from_upload ⟨"data.zip", false, []⟩ ≠
      .error .badZipFile ∧
    upload_dataset initState (some ⟨"data.zip", true, []⟩) =
      .error (.nameError "tempfile") :=
  c10_upload_dataset_name_error initState ⟨"data.zip", true, []⟩
    ⟨"data.zip", false, []⟩ (by decide)

end ImageGenerator
